import Mathlib

/-!
Verification of `airtable2sql` (src/airtable2sql/cli.py) against its
specification.  The Python program is shallowly embedded below:

* `PyValue` models the JSON-decoded Python values that appear as Airtable
  record field values (str / int / bool / None / list / dict).  IEEE floats
  are outside the embedding.
* `jsonDumps` models `json.dumps` with its default options
  (`ensure_ascii=True`, separators `", "` and `": "`, insertion order kept).
* `jsonLoads` models `json.loads` on the same value domain.
* `sanitize_field`, `normalizeRecord` (the loop body of `airtable_to_df`),
  the pandas `DataFrame` construction, `df.to_sql(..., if_exists='replace')`,
  `fetch_base_metadata`, `get_all_bases`, and the `main` control flow are
  embedded as pure functions; the SQLite store is an association list and
  the side effects of `main` are reified as a trace of `ProgStep`s.
-/

/-- A JSON-decodable Python value: the domain of Airtable record field
values seen by `cli.py` (floats excluded from the embedding). -/
inductive PyValue where
  | null
  | bool (b : Bool)
  | int (n : Int)
  | str (s : String)
  | list (xs : List PyValue)
  | dict (kvs : List (String × PyValue))

/-- Decimal digit character, `digitChar k = '0' + k` for `k < 10`. -/
def digitChar (k : Nat) : Char := Char.ofNat (48 + k)

/-- Decimal rendering of a natural number, most significant digit first
(`repr` of a Python non-negative int). -/
def natToChars (n : Nat) : List Char :=
  if n < 10 then [digitChar n] else natToChars (n / 10) ++ [digitChar (n % 10)]
decreasing_by exact Nat.div_lt_self (by omega) (by omega)

/-- `repr` of a Python int (minus sign, then decimal digits). -/
def intToChars (i : Int) : List Char :=
  if i < 0 then '-' :: natToChars i.natAbs else natToChars i.natAbs

/-- Lowercase hexadecimal digit character, as used by `json.dumps`. -/
def hexChar (k : Nat) : Char :=
  if k < 10 then digitChar k else Char.ofNat (87 + k)

/-- Four lowercase hex digits of `n % 0x10000`, the `XXXX` of `\uXXXX`. -/
def hex4Chars (n : Nat) : List Char :=
  [hexChar (n / 4096 % 16), hexChar (n / 256 % 16), hexChar (n / 16 % 16), hexChar (n % 16)]

/-- `json.dumps` escaping of one character with `ensure_ascii=True`:
`"` and `\` and the named control escapes, `\uXXXX` for other control and
non-ASCII characters, and a UTF-16 surrogate pair for astral characters. -/
def escapePyChar (c : Char) : List Char :=
  if c = '"' then ['\\', '"']
  else if c = '\\' then ['\\', '\\']
  else if c = '\n' then ['\\', 'n']
  else if c = '\t' then ['\\', 't']
  else if c = '\r' then ['\\', 'r']
  else if c.toNat = 8 then ['\\', 'b']
  else if c.toNat = 12 then ['\\', 'f']
  else if c.toNat < 32 then '\\' :: 'u' :: hex4Chars c.toNat
  else if c.toNat < 127 then [c]
  else if c.toNat < 65536 then '\\' :: 'u' :: hex4Chars c.toNat
  else
    '\\' :: 'u' :: hex4Chars (55296 + (c.toNat - 65536) / 1024) ++
      '\\' :: 'u' :: hex4Chars (56320 + (c.toNat - 65536) % 1024)

/-- Escape every character of a string body. -/
def escChars : List Char → List Char
  | [] => []
  | c :: t => escapePyChar c ++ escChars t

mutual

/-- `json.dumps` with default arguments, producing the character list of the
serialized text (separators `", "` and `": "`, keys in insertion order). -/
def dumpsVal : PyValue → List Char
  | .null => "null".data
  | .bool true => "true".data
  | .bool false => "false".data
  | .int i => intToChars i
  | .str s => '"' :: (escChars s.data ++ ['"'])
  | .list xs => '[' :: (dumpsItems xs ++ [']'])
  | .dict kvs => '\x7b' :: (dumpsEntries kvs ++ ['\x7d'])

/-- Array elements joined by `", "`. -/
def dumpsItems : List PyValue → List Char
  | [] => []
  | [x] => dumpsVal x
  | x :: y :: t => dumpsVal x ++ ',' :: ' ' :: dumpsItems (y :: t)

/-- Object members `"key": value` joined by `", "`. -/
def dumpsEntries : List (String × PyValue) → List Char
  | [] => []
  | [(k, v)] => '"' :: (escChars k.data ++ '"' :: ':' :: ' ' :: dumpsVal v)
  | (k, v) :: e :: t =>
      ('"' :: (escChars k.data ++ '"' :: ':' :: ' ' :: dumpsVal v)) ++
        ',' :: ' ' :: dumpsEntries (e :: t)

end

/-- `json.dumps(value)` as a string. -/
def jsonDumps (v : PyValue) : String := String.mk (dumpsVal v)

/-- `sanitize_field` from `cli.py`: a list or dict becomes its JSON text;
every other value passes through unchanged. -/
def sanitize_field (value : PyValue) : PyValue :=
  match value with
  | .list xs => .str (jsonDumps (.list xs))
  | .dict kvs => .str (jsonDumps (.dict kvs))
  | v => v

/-- Is the value a Python `list` or `dict`? -/
def isComposite : PyValue → Bool
  | .list _ => true
  | .dict _ => true
  | _ => false

/-- One Airtable record as returned by `table.all()`:
`record['id']` and `record['fields']` (an insertion-ordered dict). -/
structure AirtableRecord where
  id : String
  fields : List (String × PyValue)

/-- Python dict lookup (`d[k]` / `d.get(k)`) on an insertion-ordered
association list with unique keys. -/
def pyDictGet {α : Type} : List (String × α) → String → Option α
  | [], _ => none
  | (k1, v) :: t, k => if k1 == k then some v else pyDictGet t k

/-- Python dict assignment `d[k] = v` on an insertion-ordered association
list: update in place when the key exists, append otherwise. -/
def pyDictSet {α : Type} (d : List (String × α)) (k : String) (v : α) :
    List (String × α) :=
  if d.any (fun p => p.1 == k) then
    d.map (fun p => if p.1 == k then (k, v) else p)
  else d ++ [(k, v)]

/-- The body of the `for record in records` loop of `airtable_to_df`:
sanitize every field value, then set `clean_fields['_id'] = record['id']`. -/
def normalizeRecord (record : AirtableRecord) : List (String × PyValue) :=
  pyDictSet (record.fields.map (fun kv => (kv.1, sanitize_field kv.2)))
    "_id" (.str record.id)

/-- One flattened row (a Python dict rendered as an ordered association list). -/
abbrev Row := List (String × PyValue)

/-- Merge the keys of one row into the accumulated column list, keeping
first-seen order (pandas column construction from a list of dicts). -/
def addCols (acc : List String) : List String → List String
  | [] => acc
  | k :: t => addCols (if acc.contains k then acc else acc ++ [k]) t

/-- Union of the rows' keys in first-seen order: `df.columns`. -/
def dfColumns (rows : List Row) : List String :=
  rows.foldl (fun acc row => addCols acc (row.map Prod.fst)) []

/-- A pandas `DataFrame`: column labels plus a row-major cell grid
(`none` is a missing cell, pandas `NaN`). -/
structure PandasDF where
  cols : List String
  cells : List (List (Option PyValue))

/-- `pd.DataFrame(data)` for a list of dicts: the column union, and one
grid row per dict with absent keys as missing cells. -/
def mkDF (rows : List Row) : PandasDF :=
  let cs := dfColumns rows
  ⟨cs, rows.map (fun row => cs.map (fun c => pyDictGet row c))⟩

/-- `df.empty`: true when either axis has length zero. -/
def dfEmpty (df : PandasDF) : Bool :=
  df.cells.length == 0 || df.cols.length == 0

/-- `airtable_to_df`: normalize every record and build the frame. -/
def airtable_to_df (records : List AirtableRecord) : PandasDF :=
  mkDF (records.map normalizeRecord)

/-- One SQLite table: its column schema and its rows. -/
structure SqlTable where
  cols : List String
  cells : List (List (Option PyValue))

/-- The per-base SQLite database: table name to table contents. -/
abbrev SqlStore := List (String × SqlTable)

/-- Outcome reported for one table by `export_base_to_sqlite`. -/
inductive WriteOutcome where
  | saved
  | skipped
deriving DecidableEq

/-- The table-write step of `export_base_to_sqlite`: build the frame; if
`df.empty or len(df.columns) == 0`, skip and leave the store untouched;
otherwise `df.to_sql(name, engine, if_exists='replace', index=False)`
replaces any existing table of that name. -/
def writeTable (store : SqlStore) (name : String) (rows : List Row) :
    SqlStore × WriteOutcome :=
  let df := mkDF rows
  if dfEmpty df || df.cols.length == 0 then (store, .skipped)
  else (pyDictSet store name ⟨df.cols, df.cells⟩, .saved)

/-- Table lookup in the store. -/
def storeGet (store : SqlStore) (name : String) : Option SqlTable :=
  pyDictGet store name

/-- `table['name'].replace(" ", "_")` / `base_name.replace(' ', '_')`. -/
def pyReplaceSpaces (s : String) : String :=
  String.mk (s.data.map (fun c => if c = ' ' then '_' else c))

/-- One iteration of the table loop of `export_base_to_sqlite`: sanitize
the display name, normalize the fetched records, write, and record the
per-table outcome. -/
def exportStep (acc : SqlStore × List (String × WriteOutcome))
    (t : String × List AirtableRecord) :
    SqlStore × List (String × WriteOutcome) :=
  let tname := pyReplaceSpaces t.1
  let written := writeTable acc.1 tname ((t.2).map normalizeRecord)
  (written.1, acc.2 ++ [(tname, written.2)])

/-- The table loop of `export_base_to_sqlite`: for each remote table
(display name paired with its fetched records), write the normalized rows
under the space-sanitized name and record the outcome. -/
def exportBaseTables (store : SqlStore)
    (tables : List (String × List AirtableRecord)) :
    SqlStore × List (String × WriteOutcome) :=
  tables.foldl exportStep (store, [])

/-- `posixpath.join(a, b)`: an absolute `b` discards `a`; otherwise a `/`
is inserted unless `a` is empty or already ends with one. -/
def strStartsWithSlash (s : String) : Bool :=
  s.data.head? == some '/'

/-- Does the string end with `/`? -/
def strEndsWithSlash (s : String) : Bool :=
  s.data.getLast? == some '/'

/-- `os.path.join` on POSIX, as called by `export_base_to_sqlite`. -/
def osPathJoin (a b : String) : String :=
  if strStartsWithSlash b then b
  else if a == "" || strEndsWithSlash a then a ++ b
  else a ++ "/" ++ b

/-- `db_name = f"{base_name.replace(' ', '_')}.db"`. -/
def dbFileName (base_name : String) : String :=
  pyReplaceSpaces base_name ++ ".db"

/-- `db_path = os.path.join(output_dir, db_name)`. -/
def dbPath (output_dir base_name : String) : String :=
  osPathJoin output_dir (dbFileName base_name)

/-- An HTTP response as seen by `requests.get`: status code, body text,
and the JSON-decoded body for `response.json()`. -/
structure HttpResponse where
  status_code : Nat
  text : String
  body : PyValue

/-- Result of one catalog call: the raised `Exception` message for a
non-200 status, a Python-level error (`KeyError`/`TypeError`) when the
body lacks the expected key, or the extracted value. -/
inductive ApiResult where
  | remoteErr (msg : String)
  | pyError
  | ok (v : PyValue)

/-- `response.json()[k]`. -/
def jsonGetKey (v : PyValue) (k : String) : Option PyValue :=
  match v with
  | .dict kvs => pyDictGet kvs k
  | _ => none

/-- `fetch_base_metadata` from `cli.py`: raise unless the status is 200,
with the status code and body text in the message; else return
`response.json()["tables"]`. -/
def fetch_base_metadata (base_id : String) (resp : HttpResponse) : ApiResult :=
  if resp.status_code ≠ 200 then
    .remoteErr ("Failed to fetch tables for base " ++ base_id ++ ": " ++
      toString resp.status_code ++ " " ++ resp.text)
  else
    match jsonGetKey resp.body "tables" with
    | some v => .ok v
    | none => .pyError

/-- `get_all_bases` from `cli.py`: same contract for the base-listing call. -/
def get_all_bases (resp : HttpResponse) : ApiResult :=
  if resp.status_code ≠ 200 then
    .remoteErr ("Failed to fetch base list: " ++
      toString resp.status_code ++ " " ++ resp.text)
  else
    match jsonGetKey resp.body "bases" with
    | some v => .ok v
    | none => .pyError

/-- Observable steps of `main`, in program order. -/
inductive ProgStep where
  | usageError
  | httpGetBases
  | warnSkip (base_id : String)
  | exportBase (base_id : String) (base_name : String)
deriving DecidableEq

/-- Python truthiness of an optional string: `None` and `""` are falsy. -/
def pyTruthy : Option String → Bool
  | none => false
  | some "" => false
  | some _ => true

/-- `argparse` resolution of `--token` with
`default=os.environ.get("AIRTABLE_API_KEY")`. -/
def resolveToken (cliToken envToken : Option String) : Option String :=
  match cliToken with
  | some t => some t
  | none => envToken

/-- `all_bases_dict = {b["id"]: b["name"] for b in all_bases}`. -/
def allBasesDict (bases : List (String × String)) : List (String × String) :=
  bases.foldl (fun acc b => pyDictSet acc b.1 b.2) []

/-- `str.split(",")`: the substrings between commas, empties included. -/
def splitCommaAux (cur : List Char) : List Char → List (List Char)
  | [] => [cur.reverse]
  | c :: t => if c = ',' then cur.reverse :: splitCommaAux [] t else splitCommaAux (c :: cur) t

/-- Python `s.split(",")`. -/
def pySplitComma (s : String) : List String :=
  (splitCommaAux [] s.data).map String.mk

/-- Python `s.strip()`: drop leading and trailing whitespace. -/
def pyStrip (s : String) : String :=
  String.mk (((s.data.dropWhile Char.isWhitespace).reverse.dropWhile
    Char.isWhitespace).reverse)

/-- `[b.strip() for b in args.base.split(",")]`. -/
def splitBaseIds (s : String) : List String :=
  (pySplitComma s).map pyStrip

/-- The per-id branch of `main`'s filter loop:
`base_name = all_bases_dict.get(base_id)`, then warn and skip when the
name is falsy (missing key, or an empty display name), else export. -/
def selectStep (dict : List (String × String)) (base_id : String) : ProgStep :=
  match pyDictGet dict base_id with
  | none => .warnSkip base_id
  | some name => if name == "" then .warnSkip base_id else .exportBase base_id name

/-- The control flow of `main` as a step trace: missing (falsy) token
stops at the usage error with nothing else done; otherwise the base list
is fetched over HTTP and each selected base is exported or warned about. -/
def mainTrace (cliToken envToken : Option String) (baseArg : Option String)
    (accessible : List (String × String)) : List ProgStep :=
  let token := resolveToken cliToken envToken
  if pyTruthy token = false then [.usageError]
  else
    let dict := allBasesDict accessible
    .httpGetBases ::
      (match baseArg with
       | some bstr =>
           if bstr == "" then dict.map (fun b => .exportBase b.1 b.2)
           else (splitBaseIds bstr).map (selectStep dict)
       | none => dict.map (fun b => .exportBase b.1 b.2))

/-- Process exit status read off a trace: `parser.error` exits with 2,
a completed run exits with 0. -/
def mainExitCodeOf (steps : List ProgStep) : Nat :=
  if steps.contains .usageError then 2 else 0

/-- JSON insignificant whitespace. -/
def isWsCh (c : Char) : Bool :=
  c == ' ' || c == '\t' || c == '\n' || c == '\r'

/-- Drop leading JSON whitespace. -/
def skipWs : List Char → List Char
  | c :: t => if isWsCh c then skipWs t else c :: t
  | [] => []

/-- ASCII decimal digit test. -/
def isDigitCh (c : Char) : Bool := '0' ≤ c && c ≤ '9'

/-- Numeric value of a decimal digit character. -/
def digitVal (c : Char) : Nat := c.toNat - 48

/-- Consume a run of decimal digits, folding them onto `acc`. -/
def parseDigits (acc : Nat) : List Char → Nat × List Char
  | c :: t => if isDigitCh c then parseDigits (acc * 10 + digitVal c) t else (acc, c :: t)
  | [] => (acc, [])

/-- Value of one hex digit character, if it is one. -/
def hexDigitVal (c : Char) : Option Nat :=
  if '0' ≤ c && c ≤ '9' then some (c.toNat - 48)
  else if 'a' ≤ c && c ≤ 'f' then some (c.toNat - 87)
  else if 'A' ≤ c && c ≤ 'F' then some (c.toNat - 55)
  else none

/-- Value of four hex digit characters. -/
def hexQuad (a b c d : Char) : Option Nat :=
  match hexDigitVal a, hexDigitVal b, hexDigitVal c, hexDigitVal d with
  | some va, some vb, some vc, some vd => some (((va * 16 + vb) * 16 + vc) * 16 + vd)
  | _, _, _, _ => none

/-- The named single-character JSON escapes `\"` `\\` `\/` `\n` `\t` `\r`
`\b` `\f`. -/
def namedUnescape (e : Char) : Option Char :=
  if e = '"' then some '"'
  else if e = '\\' then some '\\'
  else if e = '/' then some '/'
  else if e = 'n' then some '\n'
  else if e = 't' then some '\t'
  else if e = 'r' then some '\r'
  else if e = 'b' then some (Char.ofNat 8)
  else if e = 'f' then some (Char.ofNat 12)
  else none

/-- Prepend a decoded character to a string-parse result. -/
def consJStr (c : Char) : Option (List Char × List Char) → Option (List Char × List Char)
  | some (cs, r) => some (c :: cs, r)
  | none => none

mutual

/-- Parse a JSON string body after its opening quote: plain characters,
the named escapes, and `\uXXXX` with UTF-16 surrogate-pair combination.
Returns the decoded characters and the input after the closing quote. -/
def parseJStr : List Char → Option (List Char × List Char)
  | [] => none
  | c :: t =>
    if c = '"' then some ([], t)
    else if c = '\\' then parseJEscape t
    else consJStr c (parseJStr t)

/-- Parse what follows a backslash. -/
def parseJEscape : List Char → Option (List Char × List Char)
  | [] => none
  | e :: t1 =>
    if e = 'u' then parseJHex t1
    else
      match namedUnescape e with
      | none => none
      | some ch => consJStr ch (parseJStr t1)

/-- Parse the four hex digits of `\uXXXX` and dispatch on the code unit:
a high surrogate must be followed by a low one, a lone low surrogate is
rejected, anything else decodes to its character. -/
def parseJHex : List Char → Option (List Char × List Char)
  | a :: b :: c2 :: d :: t2 =>
      (match hexQuad a b c2 d with
       | none => none
       | some n =>
          if 55296 ≤ n ∧ n < 56320 then parseJLowSurr n t2
          else if 56320 ≤ n ∧ n < 57344 then none
          else consJStr (Char.ofNat n) (parseJStr t2))
  | _ => none

/-- After a high surrogate `n`, parse the low-surrogate escape and combine. -/
def parseJLowSurr (n : Nat) : List Char → Option (List Char × List Char)
  | s1 :: s2 :: e2 :: f2 :: g2 :: h2 :: t3 =>
      if s1 = '\\' ∧ s2 = 'u' then
        match hexQuad e2 f2 g2 h2 with
        | none => none
        | some m =>
            if 56320 ≤ m ∧ m < 57344 then
              consJStr (Char.ofNat (65536 + (n - 55296) * 1024 + (m - 56320)))
                (parseJStr t3)
            else none
      else none
  | _ => none

end

/-- Wrap a parsed string body as a value. -/
def wrapStr : Option (List Char × List Char) → Option (PyValue × List Char)
  | some (body, r) => some (.str (String.mk body), r)
  | none => none

/-- Wrap parsed array elements as a value. -/
def wrapList : Option (List PyValue × List Char) → Option (PyValue × List Char)
  | some (xs, r) => some (.list xs, r)
  | none => none

/-- Wrap parsed object members as a value. -/
def wrapDict : Option (List (String × PyValue) × List Char) → Option (PyValue × List Char)
  | some (kvs, r) => some (.dict kvs, r)
  | none => none

/-- The rest of the literal `true` after its `t`. -/
def parseTrueLit : List Char → Option (PyValue × List Char)
  | 'r' :: 'u' :: 'e' :: r => some (.bool true, r)
  | _ => none

/-- The rest of the literal `false` after its `f`. -/
def parseFalseLit : List Char → Option (PyValue × List Char)
  | 'a' :: 'l' :: 's' :: 'e' :: r => some (.bool false, r)
  | _ => none

/-- The rest of the literal `null` after its `n`. -/
def parseNullLit : List Char → Option (PyValue × List Char)
  | 'u' :: 'l' :: 'l' :: r => some (.null, r)
  | _ => none

/-- A negative integer after its minus sign: at least one digit. -/
def parseNegInt : List Char → Option (PyValue × List Char)
  | [] => none
  | c1 :: t1 =>
      if isDigitCh c1 then
        some (.int (-(((parseDigits (digitVal c1) t1).1 : Nat) : Int)),
          (parseDigits (digitVal c1) t1).2)
      else none

mutual

/-- Fuel-bounded JSON value parser, at the first character of a value
(no leading whitespace).  Numbers follow the integer grammar, matching
the `PyValue` domain. -/
def parseJsonValue : Nat → List Char → Option (PyValue × List Char)
  | 0, _ => none
  | fuel + 1, cs =>
    match cs with
    | [] => none
    | c :: t =>
      if c = '"' then wrapStr (parseJStr t)
      else if c = '[' then
        match skipWs t with
        | [] => none
        | c1 :: t1 =>
            if c1 = ']' then some (.list [], t1)
            else wrapList (parseItems fuel (c1 :: t1))
      else if c = '\x7b' then
        match skipWs t with
        | [] => none
        | c1 :: t1 =>
            if c1 = '\x7d' then some (.dict [], t1)
            else wrapDict (parseEntries fuel (c1 :: t1))
      else if c = 't' then parseTrueLit t
      else if c = 'f' then parseFalseLit t
      else if c = 'n' then parseNullLit t
      else if c = '-' then parseNegInt t
      else if isDigitCh c then
        some (.int (((parseDigits (digitVal c) t).1 : Nat) : Int),
          (parseDigits (digitVal c) t).2)
      else none

/-- One-or-more comma-separated array elements, ending at `]`
(the empty array is handled by `parseJsonValue`). -/
def parseItems : Nat → List Char → Option (List PyValue × List Char)
  | 0, _ => none
  | fuel + 1, cs =>
    match parseJsonValue fuel cs with
    | none => none
    | some (v, r) =>
        match skipWs r with
        | [] => none
        | c :: r1 =>
            if c = ',' then
              match parseItems fuel (skipWs r1) with
              | some (vs, r2) => some (v :: vs, r2)
              | none => none
            else if c = ']' then some ([v], r1)
            else none

/-- One-or-more `"key": value` object members, ending at the closing
brace (the empty object is handled by `parseJsonValue`). -/
def parseEntries : Nat → List Char → Option (List (String × PyValue) × List Char)
  | 0, _ => none
  | fuel + 1, cs =>
    match cs with
    | [] => none
    | c0 :: t =>
      if c0 = '"' then
        match parseJStr t with
        | none => none
        | some (key, r) =>
            match skipWs r with
            | [] => none
            | c1 :: r1 =>
                if c1 = ':' then
                  match parseJsonValue fuel (skipWs r1) with
                  | none => none
                  | some (v, r2) =>
                      match skipWs r2 with
                      | [] => none
                      | c2 :: r3 =>
                          if c2 = ',' then
                            match parseEntries fuel (skipWs r3) with
                            | some (kvs, r4) => some ((String.mk key, v) :: kvs, r4)
                            | none => none
                          else if c2 = '\x7d' then some ([(String.mk key, v)], r3)
                          else none
                else none
      else none

end

/-- `json.loads` on the embedded value domain: parse one JSON document,
allowing surrounding whitespace and rejecting trailing characters. -/
def jsonLoads (s : String) : Option PyValue :=
  match parseJsonValue (s.data.length + 1) (skipWs s.data) with
  | some (v, r) => if skipWs r = [] then some v else none
  | none => none

/-! ### Dictionary and normalization lemmas -/

theorem sanitize_field_scalar (v : PyValue) (h : isComposite v = false) :
    sanitize_field v = v := by
  cases v <;> simp_all [sanitize_field, isComposite]

theorem map_sanitize_eq_self (l : List (String × PyValue))
    (hs : ∀ kv ∈ l, isComposite kv.2 = false) :
    l.map (fun kv => (kv.1, sanitize_field kv.2)) = l := by
  induction l with
  | nil => rfl
  | cons a t ih =>
      have ha := sanitize_field_scalar a.2 (hs a (by simp))
      simp [ha, ih (fun kv hkv => hs kv (by simp [hkv]))]

theorem keys_not_mem_any {α : Type} (d : List (String × α)) (k : String)
    (h : k ∉ d.map Prod.fst) :
    (d.any fun p => p.1 == k) = false := by
  cases hq : d.any (fun p => p.1 == k) with
  | false => rfl
  | true =>
      obtain ⟨p, hp, e⟩ := List.any_eq_true.mp hq
      exact absurd (List.mem_map.mpr ⟨p, hp, beq_iff_eq.mp e⟩) h

theorem keys_mem_any {α : Type} (d : List (String × α)) (k : String)
    (h : k ∈ d.map Prod.fst) :
    (d.any fun p => p.1 == k) = true := by
  rw [List.any_eq_true]
  obtain ⟨p, hp, e⟩ := List.mem_map.mp h
  exact ⟨p, hp, by simp [e]⟩

theorem pyDictSet_absent {α : Type} (d : List (String × α)) (k : String) (v : α)
    (h : (d.any fun p => p.1 == k) = false) :
    pyDictSet d k v = d ++ [(k, v)] := by
  simp [pyDictSet, h]

theorem pyDictGet_pyDictSet {α : Type} (d : List (String × α)) (k : String) (v : α) :
    pyDictGet (pyDictSet d k v) k = some v := by
  induction d with
  | nil => simp [pyDictSet, pyDictGet]
  | cons a t ih =>
      obtain ⟨a1, a2⟩ := a
      by_cases e : a1 = k
      · subst e
        have hany : (((a1, a2) :: t).any fun p => p.1 == a1) = true := by simp
        have hset : pyDictSet ((a1, a2) :: t) a1 v
            = (a1, v) :: t.map (fun p => if p.1 == a1 then (a1, v) else p) := by
          rw [pyDictSet, if_pos hany, List.map_cons]
          simp
        rw [hset]
        simp [pyDictGet]
      · by_cases ht : (t.any fun p => p.1 == k) = true
        · have hany : (((a1, a2) :: t).any fun p => p.1 == k) = true := by
            simp [List.any_cons, ht]
          have hset : pyDictSet ((a1, a2) :: t) k v
              = (a1, a2) :: t.map (fun p => if p.1 == k then (k, v) else p) := by
            rw [pyDictSet, if_pos hany, List.map_cons]
            simp [e]
          have hset2 : pyDictSet t k v
              = t.map (fun p => if p.1 == k then (k, v) else p) := by
            rw [pyDictSet, if_pos ht]
          rw [hset]
          simp only [pyDictGet, if_neg (by simp [e] : ¬((a1 == k) = true))]
          rw [← hset2]
          exact ih
        · have ht' : (t.any fun p => p.1 == k) = false := Bool.eq_false_iff.mpr ht
          have hany : (((a1, a2) :: t).any fun p => p.1 == k) = false := by
            rw [List.any_cons, Bool.or_eq_false_iff]
            exact ⟨by simp [e], ht'⟩
          have hset : pyDictSet ((a1, a2) :: t) k v = (a1, a2) :: (t ++ [(k, v)]) := by
            rw [pyDictSet, if_neg (by simp [hany] : ¬((((a1, a2) :: t).any fun p => p.1 == k) = true)),
              List.cons_append]
          have hset2 : pyDictSet t k v = t ++ [(k, v)] := by
            rw [pyDictSet, if_neg (by simp [ht'] : ¬((t.any fun p => p.1 == k) = true))]
          rw [hset]
          simp only [pyDictGet, if_neg (by simp [e] : ¬((a1 == k) = true))]
          rw [← hset2]
          exact ih

theorem pyDictSet_keys_of_mem {α : Type} (d : List (String × α)) (k : String) (v : α)
    (h : k ∈ d.map Prod.fst) :
    (pyDictSet d k v).map Prod.fst = d.map Prod.fst := by
  rw [pyDictSet, if_pos (keys_mem_any d k h), List.map_map]
  apply List.map_congr_left
  intro p hp
  by_cases e : (p.1 == k) = true
  · simp only [Function.comp_apply, if_pos e]
    exact (beq_iff_eq.mp e).symm
  · simp only [Function.comp_apply, if_neg e]

theorem pyDictSet_mem_keys {α : Type} (d : List (String × α)) (k : String) (v : α) :
    k ∈ (pyDictSet d k v).map Prod.fst := by
  by_cases h : (d.any fun p => p.1 == k) = true
  · rw [pyDictSet, if_pos h, List.map_map]
    obtain ⟨p, hp, hpk⟩ := List.any_eq_true.mp h
    refine List.mem_map.mpr ⟨p, hp, ?_⟩
    simp [Function.comp, hpk]
  · rw [pyDictSet, if_neg h]
    simp

/-- Every normalized row carries the `_id` column. -/
theorem normalize_has_id (r : AirtableRecord) :
    "_id" ∈ (normalizeRecord r).map Prod.fst :=
  pyDictSet_mem_keys _ _ _

/-! ### Column-union and export-loop lemmas -/

theorem addCols_mem_acc (ks : List String) :
    ∀ (acc : List String) (x : String), x ∈ acc → x ∈ addCols acc ks := by
  induction ks with
  | nil => intro acc x h; exact h
  | cons k t ih =>
      intro acc x h
      rw [addCols]
      apply ih
      by_cases hc : acc.contains k = true
      · rw [if_pos hc]
        exact h
      · rw [if_neg hc]
        exact List.mem_append_left _ h

theorem addCols_mem_key (ks : List String) :
    ∀ (acc : List String) (x : String), x ∈ ks → x ∈ addCols acc ks := by
  induction ks with
  | nil => intro acc x h; cases h
  | cons k t ih =>
      intro acc x h
      rcases List.mem_cons.mp h with heq | hmem
      · subst heq
        rw [addCols]
        apply addCols_mem_acc
        by_cases hc : acc.contains x = true
        · rw [if_pos hc]
          exact List.elem_iff.mp hc
        · rw [if_neg hc]
          exact List.mem_append_right _ (by simp)
      · rw [addCols]
        exact ih _ x hmem

theorem foldl_addCols_acc (rows : List Row) :
    ∀ (acc : List String) (x : String), x ∈ acc →
      x ∈ rows.foldl (fun a r => addCols a (r.map Prod.fst)) acc := by
  induction rows with
  | nil => intro acc x h; exact h
  | cons r t ih =>
      intro acc x h
      rw [List.foldl_cons]
      exact ih _ x (addCols_mem_acc _ _ x h)

theorem foldl_addCols_mem (rows : List Row) :
    ∀ (acc : List String) (row : Row), row ∈ rows →
      ∀ x, x ∈ row.map Prod.fst →
        x ∈ rows.foldl (fun a r => addCols a (r.map Prod.fst)) acc := by
  induction rows with
  | nil => intro _ _ h; cases h
  | cons r t ih =>
      intro acc row hrow x hx
      rw [List.foldl_cons]
      rcases List.mem_cons.mp hrow with rfl | hmem
      · exact foldl_addCols_acc t _ x (addCols_mem_key _ _ x hx)
      · exact ih _ row hmem x hx

/-- Any key of any row appears among the frame's columns. -/
theorem dfColumns_mem (rows : List Row) (row : Row) (hrow : row ∈ rows)
    (x : String) (hx : x ∈ row.map Prod.fst) : x ∈ dfColumns rows :=
  foldl_addCols_mem rows [] row hrow x hx

/-- The outcome list of the export loop records exactly the
space-sanitized display names, in order. -/
theorem exportFold_names (tables : List (String × List AirtableRecord)) :
    ∀ (st : SqlStore) (acc : List (String × WriteOutcome)),
      ((tables.foldl exportStep (st, acc)).2).map Prod.fst
        = acc.map Prod.fst ++ tables.map (fun t => pyReplaceSpaces t.1) := by
  induction tables with
  | nil => intro st acc; simp
  | cons t ts ih =>
      intro st acc
      rw [List.foldl_cons, exportStep, ih]
      simp

theorem exportBaseTables_names (store : SqlStore)
    (tables : List (String × List AirtableRecord)) :
    ((exportBaseTables store tables).2).map Prod.fst
      = tables.map (fun t => pyReplaceSpaces t.1) := by
  rw [exportBaseTables, exportFold_names]
  simp

theorem exportBaseTables_length (store : SqlStore)
    (tables : List (String × List AirtableRecord)) :
    ((exportBaseTables store tables).2).length = tables.length := by
  have h := congrArg List.length (exportBaseTables_names store tables)
  simpa using h

/-! ### Write-step lemmas -/

theorem keys_sanitize (l : List (String × PyValue)) :
    (l.map (fun kv => (kv.1, sanitize_field kv.2))).map Prod.fst = l.map Prod.fst := by
  rw [List.map_map]
  exact List.map_congr_left (fun a _ => rfl)

theorem writeTable_skip (store : SqlStore) (name : String) (rows : List Row)
    (h : rows = [] ∨ dfColumns rows = []) :
    writeTable store name rows = (store, WriteOutcome.skipped) := by
  rcases h with rfl | hc
  · rfl
  · have hcond : (dfEmpty (mkDF rows) || ((mkDF rows).cols.length == 0)) = true := by
      have h2 : (mkDF rows).cols = dfColumns rows := rfl
      rw [dfEmpty, h2, hc]
      simp
    simp only [writeTable]
    rw [if_pos hcond]

theorem writeTable_saved (store : SqlStore) (name : String) (rows : List Row)
    (h : dfEmpty (mkDF rows) = false) :
    writeTable store name rows
      = (pyDictSet store name ⟨(mkDF rows).cols, (mkDF rows).cells⟩, WriteOutcome.saved) := by
  have hc : ((mkDF rows).cols.length == 0) = false := by
    have h2 := h
    rw [dfEmpty, Bool.or_eq_false_iff] at h2
    exact h2.2
  have hcond : (dfEmpty (mkDF rows) || ((mkDF rows).cols.length == 0)) = false := by
    rw [h, hc]
    rfl
  simp only [writeTable]
  rw [if_neg (by simp [hcond])]

theorem writeTable_records_saved (store : SqlStore) (name : String)
    (r0 : AirtableRecord) (rs : List AirtableRecord) :
    (writeTable store name ((r0 :: rs).map normalizeRecord)).2 = WriteOutcome.saved := by
  have hmem : "_id" ∈ dfColumns ((r0 :: rs).map normalizeRecord) := by
    apply dfColumns_mem _ (normalizeRecord r0)
    · exact List.mem_map.mpr ⟨r0, by simp, rfl⟩
    · exact normalize_has_id r0
  have hcols : ((dfColumns ((r0 :: rs).map normalizeRecord)).length == 0) = false := by
    cases he : dfColumns ((r0 :: rs).map normalizeRecord) with
    | nil => rw [he] at hmem; cases hmem
    | cons c cs => simp [he]
  have hcells : (((r0 :: rs).map normalizeRecord).length == 0) = false := by simp
  have h : dfEmpty (mkDF ((r0 :: rs).map normalizeRecord)) = false := by
    have h1 : (mkDF ((r0 :: rs).map normalizeRecord)).cells.length
        = ((r0 :: rs).map normalizeRecord).length := by
      simp [mkDF]
    have h2 : (mkDF ((r0 :: rs).map normalizeRecord)).cols
        = dfColumns ((r0 :: rs).map normalizeRecord) := rfl
    rw [dfEmpty, h1, h2, Bool.or_eq_false_iff]
    exact ⟨hcells, hcols⟩
  rw [writeTable_saved store name _ h]

/-! ### Claims C1, C9, C10, C3, C4 -/

/-- C1 (amended): for every record whose field values are all scalars *and
whose field mapping does not already contain the reserved name `_id`*, the
normalized row equals the field mapping with every value unchanged, plus
exactly one appended `_id` column holding the record identifier.  The
amendment excludes records with a field named `_id`, on which the claim as
stated fails (see the counterexample and C9). -/
theorem claim_C1 (r : AirtableRecord)
    (hs : ∀ kv ∈ r.fields, isComposite kv.2 = false)
    (hid : "_id" ∉ r.fields.map Prod.fst) :
    normalizeRecord r = r.fields ++ [("_id", PyValue.str r.id)] := by
  rw [normalizeRecord, map_sanitize_eq_self _ hs,
    pyDictSet_absent _ _ _ (keys_not_mem_any _ _ hid)]

/-- C1 witness: a concrete all-scalar record without an `_id` field. -/
theorem claim_C1_witness :
    normalizeRecord ⟨"rec1", [("Name", PyValue.str "Ann"), ("Age", PyValue.int 3)]⟩
      = [("Name", PyValue.str "Ann"), ("Age", PyValue.int 3),
         ("_id", PyValue.str "rec1")] :=
  claim_C1 ⟨"rec1", [("Name", PyValue.str "Ann"), ("Age", PyValue.int 3)]⟩
    (by decide) (by decide)

/-- C1 counterexample: the record `{"_id": "old"}` with identifier `rec1` has
only scalar field values, yet normalization produces a single-column row with
the field's value replaced by the identifier — not the field mapping unchanged
plus one additional column, as the claim states for *every* all-scalar record. -/
theorem claim_C1_counterexample :
    normalizeRecord ⟨"rec1", [("_id", PyValue.str "old")]⟩
      = [("_id", PyValue.str "rec1")] ∧
    normalizeRecord ⟨"rec1", [("_id", PyValue.str "old")]⟩
      ≠ [("_id", PyValue.str "old")] ++ [("_id", PyValue.str "rec1")] := by
  constructor
  · rfl
  · intro h
    rw [show normalizeRecord ⟨"rec1", [("_id", PyValue.str "old")]⟩
        = [("_id", PyValue.str "rec1")] from rfl] at h
    exact absurd (congrArg List.length h) (by decide)

/-- C9: when a record's field mapping already contains a field named `_id`,
normalization keeps the column set exactly as it was (no additional column)
and the `_id` cell ends up holding the record identifier: the source field's
value is silently overwritten. -/
theorem claim_C9 (r : AirtableRecord)
    (hid : "_id" ∈ r.fields.map Prod.fst) :
    (normalizeRecord r).map Prod.fst = r.fields.map Prod.fst ∧
    pyDictGet (normalizeRecord r) "_id" = some (PyValue.str r.id) := by
  have hid2 : "_id" ∈ (r.fields.map fun kv => (kv.1, sanitize_field kv.2)).map Prod.fst := by
    rw [keys_sanitize]
    exact hid
  constructor
  · rw [normalizeRecord, pyDictSet_keys_of_mem _ _ _ hid2, keys_sanitize]
  · exact pyDictGet_pyDictSet _ _ _

/-- C9 witness: a record whose `_id` field held `"prev"` loses that value. -/
theorem claim_C9_witness :
    (normalizeRecord ⟨"rec9", [("_id", PyValue.str "prev"), ("N", PyValue.int 1)]⟩).map Prod.fst
      = ["_id", "N"] ∧
    pyDictGet (normalizeRecord ⟨"rec9", [("_id", PyValue.str "prev"), ("N", PyValue.int 1)]⟩) "_id"
      = some (PyValue.str "rec9") :=
  claim_C9 ⟨"rec9", [("_id", PyValue.str "prev"), ("N", PyValue.int 1)]⟩ (by decide)

/-- C10: every normalized row carries at least the `_id` column, and the
write step reports a skip for a fetched table iff the service returned zero
records for it — a table with at least one record is always written, even
when every record's field mapping is empty. -/
theorem claim_C10 :
    (∀ r : AirtableRecord, "_id" ∈ (normalizeRecord r).map Prod.fst) ∧
    (∀ (store : SqlStore) (name : String) (records : List AirtableRecord),
      (writeTable store name (records.map normalizeRecord)).2 = WriteOutcome.skipped
        ↔ records = []) := by
  refine ⟨normalize_has_id, ?_⟩
  intro store name records
  constructor
  · intro h
    cases records with
    | nil => rfl
    | cons r0 rs =>
        have hs := writeTable_records_saved store name r0 rs
        rw [hs] at h
        cases h
  · rintro rfl
    rfl

/-- C10 witness: one record with an empty field mapping is still written. -/
theorem claim_C10_witness :
    "_id" ∈ (normalizeRecord ⟨"recX", []⟩).map Prod.fst ∧
    ((writeTable [] "T" ([⟨"recX", []⟩].map normalizeRecord)).2 = WriteOutcome.skipped
      ↔ ([(⟨"recX", []⟩ : AirtableRecord)] : List AirtableRecord) = []) :=
  ⟨claim_C10.1 ⟨"recX", []⟩, claim_C10.2 [] "T" [⟨"recX", []⟩]⟩

/-- C3: a table whose row sequence is empty, or whose union of column names
is empty, creates nothing in the store and is reported skipped; and the
export loop reports one outcome per fetched table, so the remaining tables
of the base are still processed. -/
theorem claim_C3 :
    (∀ (store : SqlStore) (name : String) (rows : List Row),
        rows = [] ∨ dfColumns rows = [] →
        writeTable store name rows = (store, WriteOutcome.skipped)) ∧
    (∀ (store : SqlStore) (tables : List (String × List AirtableRecord)),
        ((exportBaseTables store tables).2).length = tables.length) :=
  ⟨writeTable_skip, exportBaseTables_length⟩

/-- C3 witness: writing an empty row list skips and leaves the store empty. -/
theorem claim_C3_witness :
    writeTable [] "Leads" [] = ([], WriteOutcome.skipped) :=
  claim_C3.1 [] "Leads" [] (Or.inl rfl)

/-- C4 (amended): writing a second row set under the same name replaces the
first table's schema and contents entirely — *provided the second write is
not skipped as empty* (a non-empty frame).  When the second row set is empty
the write is a no-op and the first table survives, refuting the claim as
stated over every pair; see the counterexample. -/
theorem claim_C4 (store : SqlStore) (name : String) (rows1 rows2 : List Row)
    (h : dfEmpty (mkDF rows2) = false) :
    storeGet (writeTable (writeTable store name rows1).1 name rows2).1 name
      = some ⟨(mkDF rows2).cols, (mkDF rows2).cells⟩ ∧
    (writeTable (writeTable store name rows1).1 name rows2).2 = WriteOutcome.saved := by
  rw [writeTable_saved (writeTable store name rows1).1 name rows2 h]
  exact ⟨pyDictGet_pyDictSet _ _ _, rfl⟩

/-- C4 witness: a second non-empty write fully replaces the first table. -/
theorem claim_C4_witness :
    storeGet (writeTable (writeTable ([] : SqlStore) "t" []).1 "t"
        [[("a", PyValue.int 1)]]).1 "t"
      = some ⟨["a"], [[some (PyValue.int 1)]]⟩ ∧
    (writeTable (writeTable ([] : SqlStore) "t" []).1 "t" [[("a", PyValue.int 1)]]).2
      = WriteOutcome.saved :=
  claim_C4 [] "t" [] [[("a", PyValue.int 1)]] rfl

/-- C4 counterexample: writing `[{a: 1}]` and then the empty row set under
the same name: the second call is skipped, and the store's final table keeps
the first call's schema (one column `a`) and row — while the second call's
frame has zero columns and zero rows.  The claim as stated (final table =
second call's schema and contents, for every pair) is false here. -/
theorem claim_C4_counterexample :
    (writeTable (writeTable ([] : SqlStore) "t" [[("a", PyValue.int 1)]]).1 "t" []).2
      = WriteOutcome.skipped ∧
    storeGet (writeTable (writeTable ([] : SqlStore) "t" [[("a", PyValue.int 1)]]).1 "t" []).1 "t"
      = some ⟨["a"], [[some (PyValue.int 1)]]⟩ ∧
    (mkDF ([] : List Row)).cols = [] ∧
    storeGet (writeTable (writeTable ([] : SqlStore) "t" [[("a", PyValue.int 1)]]).1 "t" []).1 "t"
      ≠ some ⟨(mkDF ([] : List Row)).cols, (mkDF ([] : List Row)).cells⟩ := by
  refine ⟨rfl, rfl, rfl, ?_⟩
  intro h
  rw [show storeGet (writeTable (writeTable ([] : SqlStore) "t"
      [[("a", PyValue.int 1)]]).1 "t" []).1 "t"
      = some ⟨["a"], [[some (PyValue.int 1)]]⟩ from rfl] at h
  have h1 := Option.some.inj h
  have h2 := congrArg (fun t => t.cols.length) h1
  exact absurd h2 (by decide)

/-! ### Claims C5, C6, C7, C8 -/

/-- C5: for both catalog calls (`get_all_bases` and `fetch_base_metadata`),
the `Exception` modelling `AuthError`/`RemoteError` is raised iff the HTTP
status differs from 200 (the success status of these endpoints), and the
raised message carries the response's status code and body text. -/
theorem claim_C5 (base_id : String) (resp : HttpResponse) :
    ((∃ msg, fetch_base_metadata base_id resp = ApiResult.remoteErr msg)
      ↔ resp.status_code ≠ 200) ∧
    ((∃ msg, get_all_bases resp = ApiResult.remoteErr msg) ↔ resp.status_code ≠ 200) ∧
    (∀ msg, fetch_base_metadata base_id resp = ApiResult.remoteErr msg →
      msg = "Failed to fetch tables for base " ++ base_id ++ ": "
        ++ toString resp.status_code ++ " " ++ resp.text) ∧
    (∀ msg, get_all_bases resp = ApiResult.remoteErr msg →
      msg = "Failed to fetch base list: " ++ toString resp.status_code ++ " " ++ resp.text) := by
  by_cases h : resp.status_code = 200
  · refine ⟨⟨?_, ?_⟩, ⟨?_, ?_⟩, ?_, ?_⟩
    · rintro ⟨msg, e⟩
      rw [fetch_base_metadata, if_neg (by simp [h])] at e
      cases hj : jsonGetKey resp.body "tables" with
      | none => rw [hj] at e; cases e
      | some v => rw [hj] at e; cases e
    · intro hne
      exact absurd h hne
    · rintro ⟨msg, e⟩
      rw [get_all_bases, if_neg (by simp [h])] at e
      cases hj : jsonGetKey resp.body "bases" with
      | none => rw [hj] at e; cases e
      | some v => rw [hj] at e; cases e
    · intro hne
      exact absurd h hne
    · intro msg e
      rw [fetch_base_metadata, if_neg (by simp [h])] at e
      cases hj : jsonGetKey resp.body "tables" with
      | none => rw [hj] at e; cases e
      | some v => rw [hj] at e; cases e
    · intro msg e
      rw [get_all_bases, if_neg (by simp [h])] at e
      cases hj : jsonGetKey resp.body "bases" with
      | none => rw [hj] at e; cases e
      | some v => rw [hj] at e; cases e
  · refine ⟨⟨?_, ?_⟩, ⟨?_, ?_⟩, ?_, ?_⟩
    · intro _
      exact h
    · intro _
      exact ⟨_, by rw [fetch_base_metadata, if_pos h]⟩
    · intro _
      exact h
    · intro _
      exact ⟨_, by rw [get_all_bases, if_pos h]⟩
    · intro msg e
      rw [fetch_base_metadata, if_pos h] at e
      exact (ApiResult.remoteErr.inj e).symm
    · intro msg e
      rw [get_all_bases, if_pos h] at e
      exact (ApiResult.remoteErr.inj e).symm

/-- C5 witness: a 403 response raises, with status and body in the message. -/
theorem claim_C5_witness :
    (∃ msg, fetch_base_metadata "app1" ⟨403, "forbidden", PyValue.null⟩
      = ApiResult.remoteErr msg) ∧
    ("Failed to fetch tables for base app1: 403 forbidden" : String)
      = "Failed to fetch tables for base " ++ "app1" ++ ": "
        ++ toString (403 : Nat) ++ " " ++ "forbidden" :=
  ⟨(claim_C5 "app1" ⟨403, "forbidden", PyValue.null⟩).1.mpr (by decide),
   (claim_C5 "app1" ⟨403, "forbidden", PyValue.null⟩).2.2.1
     "Failed to fetch tables for base app1: 403 forbidden" rfl⟩

/-- C7: when no `--token` is given and the environment fallback is unset,
`main` reports a usage error and exits with argparse's status 2, with no
network request in the trace. -/
theorem claim_C7 (baseArg : Option String) (accessible : List (String × String)) :
    mainTrace none none baseArg accessible = [ProgStep.usageError] ∧
    (mainTrace none none baseArg accessible).contains ProgStep.httpGetBases = false ∧
    mainExitCodeOf (mainTrace none none baseArg accessible) = 2 := by
  have h : mainTrace none none baseArg accessible = [ProgStep.usageError] := rfl
  refine ⟨h, ?_, ?_⟩
  · rw [h]
    rfl
  · rw [h]
    rfl

/-- Is the step an export of some base? -/
def isExportStep : ProgStep → Bool
  | .exportBase _ _ => true
  | _ => false

/-- C6 (amended): with a valid token and a non-empty `-b` filter containing a
base id present in the accessible list *with a non-empty display name* and an
id absent from it, the run exports the present base, warns about and skips
the absent id, and processes every requested id (one step per id after the
single catalog request).  The amendment adds the non-empty-name proviso: the
code's falsy test (`if not base_name`) also treats an empty display name as
not found — see the counterexample. -/
theorem claim_C6 (cliToken envToken : Option String) (bstr : String)
    (accessible : List (String × String)) (p a name : String)
    (htok : pyTruthy (resolveToken cliToken envToken) = true)
    (hb : (bstr == "") = false)
    (hp : p ∈ splitBaseIds bstr)
    (ha : a ∈ splitBaseIds bstr)
    (hpn : pyDictGet (allBasesDict accessible) p = some name)
    (hname : (name == "") = false)
    (han : pyDictGet (allBasesDict accessible) a = none) :
    ProgStep.exportBase p name ∈ mainTrace cliToken envToken (some bstr) accessible ∧
    ProgStep.warnSkip a ∈ mainTrace cliToken envToken (some bstr) accessible ∧
    (mainTrace cliToken envToken (some bstr) accessible).length
      = 1 + (splitBaseIds bstr).length := by
  have htr : mainTrace cliToken envToken (some bstr) accessible
      = ProgStep.httpGetBases ::
          (splitBaseIds bstr).map (selectStep (allBasesDict accessible)) := by
    simp only [mainTrace]
    rw [if_neg (by simp [htok]), if_neg (by simp [hb])]
  have hsp : selectStep (allBasesDict accessible) p = ProgStep.exportBase p name := by
    unfold selectStep
    rw [hpn]
    simp only [if_neg (by simp [hname] : ¬((name == "") = true))]
  have hsa : selectStep (allBasesDict accessible) a = ProgStep.warnSkip a := by
    unfold selectStep
    rw [han]
  rw [htr]
  refine ⟨?_, ?_, ?_⟩
  · exact List.mem_cons_of_mem _ (List.mem_map.mpr ⟨p, hp, hsp⟩)
  · exact List.mem_cons_of_mem _ (List.mem_map.mpr ⟨a, ha, hsa⟩)
  · simp [Nat.add_comm]

/-- C6 witness: filter `appA,appB` with only `appA` accessible (named
`Sales`): `appA` is exported, `appB` gets a skip warning, both processed. -/
theorem claim_C6_witness :
    ProgStep.exportBase "appA" "Sales"
      ∈ mainTrace (some "tok") none (some "appA,appB") [("appA", "Sales")] ∧
    ProgStep.warnSkip "appB"
      ∈ mainTrace (some "tok") none (some "appA,appB") [("appA", "Sales")] ∧
    (mainTrace (some "tok") none (some "appA,appB") [("appA", "Sales")]).length
      = 1 + (splitBaseIds "appA,appB").length :=
  claim_C6 (some "tok") none "appA,appB" [("appA", "Sales")] "appA" "appB" "Sales"
    (by decide) (by decide) (by decide) (by decide) (by decide) (by decide) (by decide)

/-- C6 counterexample: base `appA` *is present* in the accessible list but
with an empty display name; the code's `if not base_name` treats it as not
found, so the run warns and skips it instead of exporting it — no export
step occurs at all, contradicting the claim as stated. -/
theorem claim_C6_counterexample :
    mainTrace (some "tok") none (some "appA,appB") [("appA", "")]
      = [ProgStep.httpGetBases, ProgStep.warnSkip "appA", ProgStep.warnSkip "appB"] ∧
    (mainTrace (some "tok") none (some "appA,appB") [("appA", "")]).any isExportStep
      = false := by
  exact ⟨rfl, rfl⟩

/-- A sanitized file name never starts with `/` when the base name does not. -/
theorem dbFileName_no_slash (n : String) (h : strStartsWithSlash n = false) :
    strStartsWithSlash (dbFileName n) = false := by
  rw [strStartsWithSlash] at h ⊢
  rw [dbFileName, String.data_append]
  have hd : (pyReplaceSpaces n).data
      = n.data.map (fun c => if c = ' ' then '_' else c) := rfl
  rw [hd]
  cases hn : n.data with
  | nil => rfl
  | cons c t =>
      rw [hn] at h
      simp only [List.head?_cons] at h
      simp only [List.map_cons, List.cons_append, List.head?_cons]
      by_cases hc : c = ' '
      · subst hc
        decide
      · simp only [if_neg hc]
        exact h

/-- C8 (amended): for a non-empty output directory without a trailing slash
and a base name not beginning with `/`, the database file path is
`<output_dir>/<base name with spaces → underscores>.db`; and every local
table is written under the remote display name with spaces replaced by
underscores.  The provisos are forced by `os.path.join`: a base name starting
with `/` makes the file land at an absolute path outside the output
directory — see the counterexample. -/
theorem claim_C8 (output_dir base_name : String) (store : SqlStore)
    (tables : List (String × List AirtableRecord))
    (h1 : (output_dir == "") = false)
    (h2 : strEndsWithSlash output_dir = false)
    (h3 : strStartsWithSlash base_name = false) :
    dbPath output_dir base_name
      = output_dir ++ "/" ++ pyReplaceSpaces base_name ++ ".db" ∧
    ((exportBaseTables store tables).2).map Prod.fst
      = tables.map (fun t => pyReplaceSpaces t.1) := by
  refine ⟨?_, exportBaseTables_names store tables⟩
  rw [dbPath, osPathJoin,
    if_neg (by simp [dbFileName_no_slash base_name h3]),
    if_neg (by simp [h1, h2])]
  rw [dbFileName]
  simp [String.append_assoc]

/-- C8 witness: base `My Base` exported to directory `out`, one table
`Leads Tbl`. -/
theorem claim_C8_witness :
    dbPath "out" "My Base" = "out" ++ "/" ++ pyReplaceSpaces "My Base" ++ ".db" ∧
    ((exportBaseTables [] [("Leads Tbl", [])]).2).map Prod.fst
      = [("Leads Tbl", ([] : List AirtableRecord))].map (fun t => pyReplaceSpaces t.1) :=
  claim_C8 "out" "My Base" [] [("Leads Tbl", [])] (by decide) (by decide) (by decide)

/-- C8 counterexample: a base display name beginning with `/` makes
`os.path.join` discard the output directory entirely: the database file lands
at the absolute path `/x.db`, not at `<output_dir>/<sanitized name>.db`. -/
theorem claim_C8_counterexample :
    dbPath "out" "/x" = "/x.db" ∧
    dbPath "out" "/x" ≠ "out" ++ "/" ++ pyReplaceSpaces "/x" ++ ".db" := by
  constructor
  · rfl
  · intro h
    rw [show dbPath "out" "/x" = "/x.db" from rfl] at h
    exact absurd h (by decide)

/-! ### Digit and hex lemmas for the JSON round trip -/

/-- The input does not continue with a decimal digit (so a parsed number
cannot be extended by what follows). -/
def noDigitStart : List Char → Bool
  | [] => true
  | c :: _ => !isDigitCh c

theorem digit_facts : ∀ k, k < 10 →
    isDigitCh (digitChar k) = true ∧ digitVal (digitChar k) = k := by decide

/-- `10 ^ (number of decimal digits of n)`. -/
def pow10 (n : Nat) : Nat :=
  if n < 10 then 10 else 10 * pow10 (n / 10)
decreasing_by exact Nat.div_lt_self (by omega) (by omega)

theorem parseDigits_stop (acc : Nat) (rest : List Char)
    (h : noDigitStart rest = true) :
    parseDigits acc rest = (acc, rest) := by
  cases rest with
  | nil => rfl
  | cons c t =>
      have hc : isDigitCh c = false := by
        simpa [noDigitStart] using h
      simp [parseDigits, hc]

theorem parseDigits_natToChars (n : Nat) :
    ∀ (acc : Nat) (rest : List Char),
      parseDigits acc (natToChars n ++ rest)
        = parseDigits (acc * pow10 n + n) rest := by
  induction n using Nat.strongRecOn with
  | _ n ih =>
      intro acc rest
      by_cases h : n < 10
      · rw [natToChars, if_pos h, pow10, if_pos h]
        obtain ⟨hd, hv⟩ := digit_facts n h
        simp [parseDigits, hd, hv]
      · rw [natToChars, if_neg h, pow10, if_neg h, List.append_assoc,
          ih (n / 10) (Nat.div_lt_self (by omega) (by omega)) acc
            ([digitChar (n % 10)] ++ rest), List.singleton_append]
        obtain ⟨hd, hv⟩ := digit_facts (n % 10) (Nat.mod_lt _ (by omega))
        simp only [parseDigits, hd, if_true]
        rw [hv]
        have hmod : n / 10 * 10 + n % 10 = n := by omega
        have harith : (acc * pow10 (n / 10) + n / 10) * 10 + n % 10
            = acc * (10 * pow10 (n / 10)) + n := by
          calc (acc * pow10 (n / 10) + n / 10) * 10 + n % 10
              = acc * (10 * pow10 (n / 10)) + (n / 10 * 10 + n % 10) := by ring
            _ = acc * (10 * pow10 (n / 10)) + n := by rw [hmod]
        rw [harith]

theorem natToChars_head (n : Nat) :
    ∃ c t, natToChars n = c :: t ∧ isDigitCh c = true := by
  induction n using Nat.strongRecOn with
  | _ n ih =>
      by_cases h : n < 10
      · exact ⟨digitChar n, [], by rw [natToChars, if_pos h], (digit_facts n h).1⟩
      · obtain ⟨c, t, heq, hc⟩ := ih (n / 10) (Nat.div_lt_self (by omega) (by omega))
        exact ⟨c, t ++ [digitChar (n % 10)],
          by rw [natToChars, if_neg h, heq, List.cons_append], hc⟩

theorem hexDigitVal_hexChar : ∀ k, k < 16 → hexDigitVal (hexChar k) = some k := by decide

theorem hexQuad_hex4 (n : Nat) (h : n < 65536) :
    hexQuad (hexChar (n / 4096 % 16)) (hexChar (n / 256 % 16))
      (hexChar (n / 16 % 16)) (hexChar (n % 16)) = some n := by
  simp only [hexQuad, hexDigitVal_hexChar _ (Nat.mod_lt _ (by omega))]
  congr 1
  omega

/-! ### String escape round trip -/

theorem parseJStr_quote (t : List Char) : parseJStr ('"' :: t) = some ([], t) := by
  rw [parseJStr, if_pos rfl]

theorem parseJStr_plain (c : Char) (t : List Char) (h1 : c ≠ '"') (h2 : c ≠ '\\') :
    parseJStr (c :: t) = consJStr c (parseJStr t) := by
  rw [parseJStr, if_neg h1, if_neg h2]

theorem parseJStr_escape (e : Char) (t : List Char) (hu : e ≠ 'u') :
    parseJStr ('\\' :: e :: t)
      = match namedUnescape e with
        | none => none
        | some ch => consJStr ch (parseJStr t) := by
  rw [parseJStr, if_neg (by decide : ¬('\\' = '"')), if_pos (rfl : '\\' = '\\'),
    parseJEscape, if_neg hu]

theorem char_valid_nat (c : Char) :
    c.toNat < 55296 ∨ (57343 < c.toNat ∧ c.toNat < 1114112) := c.valid

theorem parseJHex_quad (a b c2 d : Char) (t2 : List Char) (n : Nat)
    (hq : hexQuad a b c2 d = some n) :
    parseJHex (a :: b :: c2 :: d :: t2)
      = if 55296 ≤ n ∧ n < 56320 then parseJLowSurr n t2
        else if 56320 ≤ n ∧ n < 57344 then none
        else consJStr (Char.ofNat n) (parseJStr t2) := by
  rw [parseJHex, hq]

theorem parseJLowSurr_step (n : Nat) (e2 f2 g2 h2 : Char) (t3 : List Char) (m : Nat)
    (hq : hexQuad e2 f2 g2 h2 = some m) :
    parseJLowSurr n ('\\' :: 'u' :: e2 :: f2 :: g2 :: h2 :: t3)
      = if 56320 ≤ m ∧ m < 57344 then
          consJStr (Char.ofNat (65536 + (n - 55296) * 1024 + (m - 56320))) (parseJStr t3)
        else none := by
  rw [parseJLowSurr, if_pos ⟨rfl, rfl⟩, hq]

theorem parseJStr_hexescape (n : Nat) (X : List Char) :
    parseJStr (('\\' :: 'u' :: hex4Chars n) ++ X) = parseJHex (hex4Chars n ++ X) := by
  rw [List.cons_append, List.cons_append, parseJStr, if_neg (by decide),
    if_pos (rfl : '\\' = '\\'), parseJEscape, if_pos (rfl : 'u' = 'u')]

theorem parseJStr_cons (c : Char) (X : List Char) :
    parseJStr (escapePyChar c ++ X) = consJStr c (parseJStr X) := by
  by_cases h1 : c = '"'
  · subst h1
    rw [show escapePyChar '"' ++ X = '\\' :: '"' :: X from rfl,
      parseJStr_escape _ _ (by decide)]
    rfl
  · by_cases h2 : c = '\\'
    · subst h2
      rw [show escapePyChar '\\' ++ X = '\\' :: '\\' :: X from rfl,
        parseJStr_escape _ _ (by decide)]
      rfl
    · by_cases h3 : c = '\n'
      · subst h3
        rw [show escapePyChar '\n' ++ X = '\\' :: 'n' :: X from rfl,
          parseJStr_escape _ _ (by decide)]
        rfl
      · by_cases h4 : c = '\t'
        · subst h4
          rw [show escapePyChar '\t' ++ X = '\\' :: 't' :: X from rfl,
            parseJStr_escape _ _ (by decide)]
          rfl
        · by_cases h5 : c = '\r'
          · subst h5
            rw [show escapePyChar '\r' ++ X = '\\' :: 'r' :: X from rfl,
              parseJStr_escape _ _ (by decide)]
            rfl
          · by_cases h6 : c.toNat = 8
            · have hc : c = Char.ofNat 8 := by rw [← Char.ofNat_toNat c, h6]
              subst hc
              rw [show escapePyChar (Char.ofNat 8) ++ X = '\\' :: 'b' :: X from rfl,
                parseJStr_escape _ _ (by decide)]
              rfl
            · by_cases h7 : c.toNat = 12
              · have hc : c = Char.ofNat 12 := by rw [← Char.ofNat_toNat c, h7]
                subst hc
                rw [show escapePyChar (Char.ofNat 12) ++ X = '\\' :: 'f' :: X from rfl,
                  parseJStr_escape _ _ (by decide)]
                rfl
              · by_cases h8 : c.toNat < 32
                · have hesc : escapePyChar c = '\\' :: 'u' :: hex4Chars c.toNat := by
                    rw [escapePyChar, if_neg h1, if_neg h2, if_neg h3, if_neg h4,
                      if_neg h5, if_neg h6, if_neg h7, if_pos h8]
                  rw [hesc, parseJStr_hexescape, hex4Chars]
                  simp only [List.cons_append, List.nil_append]
                  rw [parseJHex_quad _ _ _ _ _ _ (hexQuad_hex4 c.toNat (by omega)),
                    if_neg (by omega), if_neg (by omega), Char.ofNat_toNat]
                · by_cases h9 : c.toNat < 127
                  · have hesc : escapePyChar c = [c] := by
                      rw [escapePyChar, if_neg h1, if_neg h2, if_neg h3, if_neg h4,
                        if_neg h5, if_neg h6, if_neg h7, if_neg h8, if_pos h9]
                    rw [hesc, List.singleton_append]
                    exact parseJStr_plain c X h1 h2
                  · by_cases h10 : c.toNat < 65536
                    · have hv := char_valid_nat c
                      have hesc : escapePyChar c = '\\' :: 'u' :: hex4Chars c.toNat := by
                        rw [escapePyChar, if_neg h1, if_neg h2, if_neg h3, if_neg h4,
                          if_neg h5, if_neg h6, if_neg h7, if_neg h8, if_neg h9, if_pos h10]
                      rw [hesc, parseJStr_hexescape, hex4Chars]
                      simp only [List.cons_append, List.nil_append]
                      rw [parseJHex_quad _ _ _ _ _ _ (hexQuad_hex4 c.toNat (by omega)),
                        if_neg (by rcases hv with hv | hv <;> omega),
                        if_neg (by rcases hv with hv | hv <;> omega), Char.ofNat_toNat]
                    · have hv := char_valid_nat c
                      have hm : c.toNat - 65536 < 1048576 := by
                        rcases hv with hv | hv <;> omega
                      have hesc : escapePyChar c
                          = ('\\' :: 'u' :: hex4Chars (55296 + (c.toNat - 65536) / 1024)) ++
                              ('\\' :: 'u' :: hex4Chars (56320 + (c.toNat - 65536) % 1024)) := by
                        rw [escapePyChar, if_neg h1, if_neg h2, if_neg h3, if_neg h4,
                          if_neg h5, if_neg h6, if_neg h7, if_neg h8, if_neg h9, if_neg h10]
                      have hdiv : (c.toNat - 65536) / 1024 < 1024 := by omega
                      rw [hesc, List.append_assoc, parseJStr_hexescape,
                        hex4Chars]
                      simp only [List.cons_append, List.nil_append, List.append_assoc]
                      rw [parseJHex_quad _ _ _ _ _ _
                          (hexQuad_hex4 (55296 + (c.toNat - 65536) / 1024) (by omega)),
                        if_pos (by omega)]
                      rw [show hex4Chars (56320 + (c.toNat - 65536) % 1024) ++ X
                          = hexChar ((56320 + (c.toNat - 65536) % 1024) / 4096 % 16) ::
                            hexChar ((56320 + (c.toNat - 65536) % 1024) / 256 % 16) ::
                            hexChar ((56320 + (c.toNat - 65536) % 1024) / 16 % 16) ::
                            hexChar ((56320 + (c.toNat - 65536) % 1024) % 16) :: X from rfl]
                      rw [parseJLowSurr_step _ _ _ _ _ _ _
                          (hexQuad_hex4 (56320 + (c.toNat - 65536) % 1024) (by omega)),
                        if_pos (by omega)]
                      have harg : 65536 + (55296 + (c.toNat - 65536) / 1024 - 55296) * 1024 +
                          (56320 + (c.toNat - 65536) % 1024 - 56320) = c.toNat := by omega
                      rw [harg, Char.ofNat_toNat]

theorem parseJStr_escChars (l : List Char) :
    ∀ rest : List Char, parseJStr (escChars l ++ '"' :: rest) = some (l, rest) := by
  induction l with
  | nil => intro rest; exact parseJStr_quote rest
  | cons c t ih =>
      intro rest
      rw [escChars, List.append_assoc, parseJStr_cons, ih]
      rfl

/-! ### Value-level JSON round trip -/

theorem skipWs_not_ws (c : Char) (t : List Char) (h : isWsCh c = false) :
    skipWs (c :: t) = c :: t := by
  rw [skipWs, if_neg (by simp [h])]

theorem skipWs_space (t : List Char) : skipWs (' ' :: t) = skipWs t := by
  rw [skipWs, if_pos (by decide)]

theorem digit_not_special (c : Char) (h : isDigitCh c = true) :
    isWsCh c = false ∧ c ≠ ']' ∧ c ≠ '\x7d' ∧ c ≠ '"' ∧ c ≠ '[' ∧ c ≠ '\x7b'
      ∧ c ≠ 't' ∧ c ≠ 'f' ∧ c ≠ 'n' ∧ c ≠ '-' ∧ c ≠ ',' := by
  have hs : c ≠ ' ' := fun e => by subst e; exact absurd h (by decide)
  have htb : c ≠ '\t' := fun e => by subst e; exact absurd h (by decide)
  have hnl : c ≠ '\n' := fun e => by subst e; exact absurd h (by decide)
  have hcr : c ≠ '\r' := fun e => by subst e; exact absurd h (by decide)
  refine ⟨by rw [isWsCh]; simp [hs, htb, hnl, hcr], ?_, ?_, ?_, ?_, ?_, ?_, ?_, ?_, ?_, ?_⟩
    <;> exact fun e => by subst e; exact absurd h (by decide)

theorem dumpsVal_head (v : PyValue) :
    ∃ c t, dumpsVal v = c :: t ∧ isWsCh c = false ∧ c ≠ ']' ∧ c ≠ '\x7d' := by
  have hfix : ∀ c : Char, c ∈ ['n', 't', 'f', '"', '[', '\x7b', '-'] →
      isWsCh c = false ∧ c ≠ ']' ∧ c ≠ '\x7d' := by
    decide
  cases v with
  | int i =>
      by_cases hi : i < 0
      · obtain ⟨g1, g2, g3⟩ := hfix '-' (by decide)
        refine ⟨'-', natToChars i.natAbs, ?_, g1, g2, g3⟩
        rw [show dumpsVal (PyValue.int i) = intToChars i from rfl, intToChars, if_pos hi]
      · obtain ⟨c, t0, heq, hc⟩ := natToChars_head i.natAbs
        obtain ⟨hws, hbr, hbc, _⟩ := digit_not_special c hc
        refine ⟨c, t0, ?_, hws, hbr, hbc⟩
        rw [show dumpsVal (PyValue.int i) = intToChars i from rfl, intToChars, if_neg hi, heq]
  | null => exact ⟨_, _, rfl, hfix 'n' (by decide)⟩
  | bool b =>
      cases b with
      | true => exact ⟨_, _, rfl, hfix 't' (by decide)⟩
      | false => exact ⟨_, _, rfl, hfix 'f' (by decide)⟩
  | str s => exact ⟨_, _, rfl, hfix '"' (by decide)⟩
  | list xs => exact ⟨_, _, rfl, hfix '[' (by decide)⟩
  | dict kvs => exact ⟨_, _, rfl, hfix '\x7b' (by decide)⟩

theorem dumpsItems_head (x : PyValue) (xs : List PyValue) :
    ∃ c t, dumpsItems (x :: xs) = c :: t ∧ isWsCh c = false ∧ c ≠ ']' ∧ c ≠ '\x7d' := by
  obtain ⟨c, t, heq, h1, h2, h3⟩ := dumpsVal_head x
  cases xs with
  | nil => exact ⟨c, t, by rw [dumpsItems, heq], h1, h2, h3⟩
  | cons y ys =>
      exact ⟨c, t ++ ',' :: ' ' :: dumpsItems (y :: ys),
        by rw [dumpsItems, heq, List.cons_append], h1, h2, h3⟩

theorem skipWs_dumpsVal (v : PyValue) (X : List Char) :
    skipWs (dumpsVal v ++ X) = dumpsVal v ++ X := by
  obtain ⟨c, t, heq, hws, _, _⟩ := dumpsVal_head v
  rw [heq, List.cons_append, skipWs_not_ws _ _ hws]

theorem skipWs_dumpsItems (x : PyValue) (xs : List PyValue) (X : List Char) :
    skipWs (dumpsItems (x :: xs) ++ X) = dumpsItems (x :: xs) ++ X := by
  obtain ⟨c, t, heq, hws, _, _⟩ := dumpsItems_head x xs
  rw [heq, List.cons_append, skipWs_not_ws _ _ hws]

theorem parseJsonValue_digit (fuel : Nat) (c : Char) (t : List Char) (h : isDigitCh c = true) :
    parseJsonValue (fuel + 1) (c :: t)
      = some (.int (((parseDigits (digitVal c) t).1 : Nat) : Int),
          (parseDigits (digitVal c) t).2) := by
  obtain ⟨hws, hbr, hbc, hq, hlb, hlbr, ht2, hf2, hn2, hm2, hcm⟩ := digit_not_special c h
  rw [parseJsonValue, if_neg hq, if_neg hlb, if_neg hlbr, if_neg ht2, if_neg hf2,
    if_neg hn2, if_neg hm2, if_pos h]

theorem parseJsonValue_minus (fuel : Nat) (c : Char) (t : List Char) (h : isDigitCh c = true) :
    parseJsonValue (fuel + 1) ('-' :: c :: t)
      = some (.int (-(((parseDigits (digitVal c) t).1 : Nat) : Int)),
          (parseDigits (digitVal c) t).2) := by
  rw [parseJsonValue, if_neg (by decide), if_neg (by decide), if_neg (by decide),
    if_neg (by decide), if_neg (by decide), if_neg (by decide), if_pos rfl,
    parseNegInt, if_pos h]

theorem parseItems_some (fuel : Nat) (cs : List Char) (v : PyValue) (r : List Char)
    (h : parseJsonValue fuel cs = some (v, r)) :
    parseItems (fuel + 1) cs
      = match skipWs r with
        | [] => none
        | c :: r1 =>
            if c = ',' then
              match parseItems fuel (skipWs r1) with
              | some (vs, r2) => some (v :: vs, r2)
              | none => none
            else if c = ']' then some ([v], r1)
            else none := by
  rw [parseItems, h]

theorem parseEntries_step (fuel : Nat) (t : List Char) :
    parseEntries (fuel + 1) ('"' :: t)
      = match parseJStr t with
        | none => none
        | some (key, r) =>
            match skipWs r with
            | [] => none
            | c1 :: r1 =>
                if c1 = ':' then
                  match parseJsonValue fuel (skipWs r1) with
                  | none => none
                  | some (v, r2) =>
                      match skipWs r2 with
                      | [] => none
                      | c2 :: r3 =>
                          if c2 = ',' then
                            match parseEntries fuel (skipWs r3) with
                            | some (kvs, r4) => some ((String.mk key, v) :: kvs, r4)
                            | none => none
                          else if c2 = '\x7d' then some ([(String.mk key, v)], r3)
                          else none
                else none := by
  rw [parseEntries, if_pos rfl]

theorem dumpsEntries_head (k : String) (v : PyValue) (kvs : List (String × PyValue)) :
    ∃ t2, dumpsEntries ((k, v) :: kvs) = '"' :: t2 := by
  cases kvs with
  | nil => exact ⟨_, by rw [dumpsEntries]⟩
  | cons e es => exact ⟨_, by rw [dumpsEntries, List.cons_append]⟩

theorem skipWs_dumpsEntries (k : String) (v : PyValue) (kvs : List (String × PyValue))
    (X : List Char) :
    skipWs (dumpsEntries ((k, v) :: kvs) ++ X) = dumpsEntries ((k, v) :: kvs) ++ X := by
  obtain ⟨t2, heq⟩ := dumpsEntries_head k v kvs
  rw [heq, List.cons_append, skipWs_not_ws _ _ (by decide)]

theorem rt_fuel : ∀ fuel : Nat,
    (∀ (v : PyValue) (rest : List Char), (dumpsVal v).length < fuel →
      noDigitStart rest = true →
      parseJsonValue fuel (dumpsVal v ++ rest) = some (v, rest)) ∧
    (∀ (x : PyValue) (xs : List PyValue) (rest : List Char),
      (dumpsItems (x :: xs)).length + 1 < fuel →
      parseItems fuel (dumpsItems (x :: xs) ++ (']' :: rest)) = some (x :: xs, rest)) ∧
    (∀ (k : String) (v : PyValue) (kvs : List (String × PyValue)) (rest : List Char),
      (dumpsEntries ((k, v) :: kvs)).length + 1 < fuel →
      parseEntries fuel (dumpsEntries ((k, v) :: kvs) ++ ('\x7d' :: rest))
        = some ((k, v) :: kvs, rest)) := by
  intro fuel
  induction fuel using Nat.strongRecOn with
  | _ fuel ih =>
    cases fuel with
    | zero =>
        exact ⟨fun v rest hf _ => absurd hf (Nat.not_lt_zero _),
          fun x xs rest hf => absurd hf (Nat.not_lt_zero _),
          fun k v kvs rest hf => absurd hf (Nat.not_lt_zero _)⟩
    | succ f =>
        refine ⟨?_, ?_, ?_⟩
        · intro v rest hf hr
          cases v with
          | null =>
              rw [show dumpsVal PyValue.null ++ rest = 'n' :: 'u' :: 'l' :: 'l' :: rest
                  from rfl,
                parseJsonValue, if_neg (by decide), if_neg (by decide), if_neg (by decide),
                if_neg (by decide), if_neg (by decide), if_pos rfl]
              rfl
          | bool b =>
              cases b with
              | true =>
                  rw [show dumpsVal (PyValue.bool true) ++ rest
                      = 't' :: 'r' :: 'u' :: 'e' :: rest from rfl,
                    parseJsonValue, if_neg (by decide), if_neg (by decide),
                    if_neg (by decide), if_pos rfl]
                  rfl
              | false =>
                  rw [show dumpsVal (PyValue.bool false) ++ rest
                      = 'f' :: 'a' :: 'l' :: 's' :: 'e' :: rest from rfl,
                    parseJsonValue, if_neg (by decide), if_neg (by decide),
                    if_neg (by decide), if_neg (by decide), if_pos rfl]
                  rfl
          | str s =>
              rw [show dumpsVal (PyValue.str s) ++ rest
                  = '"' :: (escChars s.data ++ ('"' :: rest)) from by
                rw [dumpsVal]; simp,
                parseJsonValue, if_pos rfl, parseJStr_escChars s.data rest]
              rfl
          | int i =>
              by_cases hi : i < 0
              · obtain ⟨c, t0, heq, hc⟩ := natToChars_head i.natAbs
                have hsh : dumpsVal (PyValue.int i) ++ rest = '-' :: c :: (t0 ++ rest) := by
                  rw [show dumpsVal (PyValue.int i) = intToChars i from rfl, intToChars,
                    if_pos hi, heq]
                  simp
                rw [hsh, parseJsonValue_minus f c (t0 ++ rest) hc]
                have hp0 : parseDigits 0 (natToChars i.natAbs ++ rest) = (i.natAbs, rest) := by
                  rw [parseDigits_natToChars, Nat.zero_mul, Nat.zero_add,
                    parseDigits_stop _ _ hr]
                rw [heq, List.cons_append, parseDigits, if_pos hc, Nat.zero_mul,
                  Nat.zero_add] at hp0
                rw [hp0]
                simp only []
                have hcast : -((i.natAbs : Nat) : Int) = i := by omega
                rw [hcast]
              · obtain ⟨c, t0, heq, hc⟩ := natToChars_head i.natAbs
                have hsh : dumpsVal (PyValue.int i) ++ rest = c :: (t0 ++ rest) := by
                  rw [show dumpsVal (PyValue.int i) = intToChars i from rfl, intToChars,
                    if_neg hi, heq]
                  simp
                rw [hsh, parseJsonValue_digit f c (t0 ++ rest) hc]
                have hp0 : parseDigits 0 (natToChars i.natAbs ++ rest) = (i.natAbs, rest) := by
                  rw [parseDigits_natToChars, Nat.zero_mul, Nat.zero_add,
                    parseDigits_stop _ _ hr]
                rw [heq, List.cons_append, parseDigits, if_pos hc, Nat.zero_mul,
                  Nat.zero_add] at hp0
                rw [hp0]
                simp only []
                have hcast : ((i.natAbs : Nat) : Int) = i := by omega
                rw [hcast]
          | list xs =>
              cases xs with
              | nil =>
                  rw [show dumpsVal (PyValue.list []) ++ rest = '[' :: (']' :: rest) from rfl,
                    parseJsonValue, if_neg (by decide), if_pos rfl,
                    skipWs_not_ws _ _ (by decide)]
                  rfl
              | cons x xs2 =>
                  have hsh : dumpsVal (PyValue.list (x :: xs2)) ++ rest
                      = '[' :: (dumpsItems (x :: xs2) ++ (']' :: rest)) := by
                    rw [dumpsVal]; simp
                  rw [hsh, parseJsonValue, if_neg (by decide), if_pos rfl,
                    skipWs_dumpsItems x xs2 (']' :: rest)]
                  obtain ⟨c, t, heq, hws, hbr, _⟩ := dumpsItems_head x xs2
                  rw [heq, List.cons_append]
                  simp only []
                  rw [if_neg hbr, ← List.cons_append, ← heq]
                  have hlen : (dumpsItems (x :: xs2)).length + 1 < f := by
                    have hl : (dumpsVal (PyValue.list (x :: xs2))).length
                        = (dumpsItems (x :: xs2)).length + 2 := by
                      rw [dumpsVal]; simp
                    omega
                  rw [(ih f (by omega)).2.1 x xs2 rest hlen]
                  rfl
          | dict kvs =>
              cases kvs with
              | nil =>
                  rw [show dumpsVal (PyValue.dict []) ++ rest = '\x7b' :: ('\x7d' :: rest)
                      from rfl,
                    parseJsonValue, if_neg (by decide), if_neg (by decide), if_pos rfl,
                    skipWs_not_ws _ _ (by decide)]
                  rfl
              | cons kv kvs2 =>
                  obtain ⟨k, v⟩ := kv
                  have hsh : dumpsVal (PyValue.dict ((k, v) :: kvs2)) ++ rest
                      = '\x7b' :: (dumpsEntries ((k, v) :: kvs2) ++ ('\x7d' :: rest)) := by
                    rw [dumpsVal]; simp
                  rw [hsh, parseJsonValue, if_neg (by decide), if_neg (by decide), if_pos rfl,
                    skipWs_dumpsEntries k v kvs2 ('\x7d' :: rest)]
                  obtain ⟨t2, heq⟩ := dumpsEntries_head k v kvs2
                  rw [heq, List.cons_append]
                  simp only []
                  rw [if_neg (by decide), ← List.cons_append, ← heq]
                  have hlen : (dumpsEntries ((k, v) :: kvs2)).length + 1 < f := by
                    have hl : (dumpsVal (PyValue.dict ((k, v) :: kvs2))).length
                        = (dumpsEntries ((k, v) :: kvs2)).length + 2 := by
                      rw [dumpsVal]; simp
                    omega
                  rw [(ih f (by omega)).2.2 k v kvs2 rest hlen]
                  rfl
        · intro x xs rest hf
          cases xs with
          | nil =>
              have hx : dumpsItems [x] = dumpsVal x := by rw [dumpsItems]
              have hlen : (dumpsVal x).length < f := by
                rw [← hx]; omega
              rw [hx, parseItems_some f _ x (']' :: rest)
                  ((ih f (by omega)).1 x (']' :: rest) hlen rfl),
                skipWs_not_ws _ _ (by decide)]
              simp
          | cons y ys =>
              have hx : dumpsItems (x :: y :: ys)
                  = dumpsVal x ++ ',' :: ' ' :: dumpsItems (y :: ys) := by rw [dumpsItems]
              have hlx : (dumpsVal x).length < f := by
                have hl := congrArg List.length hx
                simp [List.length_append] at hl
                omega
              have hly : (dumpsItems (y :: ys)).length + 1 < f := by
                have hl := congrArg List.length hx
                simp [List.length_append] at hl
                omega
              have harr : dumpsItems (x :: y :: ys) ++ (']' :: rest)
                  = dumpsVal x ++ (',' :: ' ' :: (dumpsItems (y :: ys) ++ (']' :: rest))) := by
                rw [hx]; simp
              rw [harr, parseItems_some f _ x _
                  ((ih f (by omega)).1 x
                    (',' :: ' ' :: (dumpsItems (y :: ys) ++ (']' :: rest))) hlx rfl),
                skipWs_not_ws _ _ (by decide)]
              simp only []
              rw [if_pos trivial, skipWs_space, skipWs_dumpsItems y ys (']' :: rest),
                (ih f (by omega)).2.1 y ys rest hly]
        · intro k v kvs rest hf
          cases kvs with
          | nil =>
              have hsh : dumpsEntries [(k, v)] ++ ('\x7d' :: rest)
                  = '"' :: (escChars k.data
                      ++ ('"' :: (':' :: ' ' :: (dumpsVal v ++ ('\x7d' :: rest))))) := by
                rw [dumpsEntries]; simp
              have hlv : (dumpsVal v).length < f := by
                have hl := congrArg List.length
                  (show dumpsEntries [(k, v)]
                      = '"' :: (escChars k.data ++ '"' :: ':' :: ' ' :: dumpsVal v)
                    from by rw [dumpsEntries])
                simp [List.length_append] at hl
                omega
              rw [hsh, parseEntries_step,
                parseJStr_escChars k.data (':' :: ' ' :: (dumpsVal v ++ ('\x7d' :: rest)))]
              simp only []
              rw [skipWs_not_ws _ _ (by decide)]
              simp only []
              rw [if_pos trivial, skipWs_space, skipWs_dumpsVal v ('\x7d' :: rest),
                (ih f (by omega)).1 v ('\x7d' :: rest) hlv rfl]
              simp only []
              rw [skipWs_not_ws _ _ (by decide)]
              simp
          | cons e es =>
              have hsh : dumpsEntries ((k, v) :: e :: es) ++ ('\x7d' :: rest)
                  = '"' :: (escChars k.data
                      ++ ('"' :: (':' :: ' ' :: (dumpsVal v
                          ++ (',' :: ' ' :: (dumpsEntries (e :: es) ++ ('\x7d' :: rest))))))) := by
                rw [dumpsEntries]; simp
              have hlv : (dumpsVal v).length < f := by
                have hl := congrArg List.length
                  (show dumpsEntries ((k, v) :: e :: es)
                      = ('"' :: (escChars k.data ++ '"' :: ':' :: ' ' :: dumpsVal v))
                        ++ ',' :: ' ' :: dumpsEntries (e :: es)
                    from by rw [dumpsEntries])
                simp [List.length_append] at hl
                omega
              have hle : (dumpsEntries (e :: es)).length + 1 < f := by
                have hl := congrArg List.length
                  (show dumpsEntries ((k, v) :: e :: es)
                      = ('"' :: (escChars k.data ++ '"' :: ':' :: ' ' :: dumpsVal v))
                        ++ ',' :: ' ' :: dumpsEntries (e :: es)
                    from by rw [dumpsEntries])
                simp [List.length_append] at hl
                omega
              obtain ⟨e1, e2⟩ := e
              rw [hsh, parseEntries_step,
                parseJStr_escChars k.data
                  (':' :: ' ' :: (dumpsVal v
                    ++ (',' :: ' ' :: (dumpsEntries ((e1, e2) :: es) ++ ('\x7d' :: rest)))))]
              simp only []
              rw [skipWs_not_ws _ _ (by decide)]
              simp only []
              rw [if_pos trivial, skipWs_space, skipWs_dumpsVal v _,
                (ih f (by omega)).1 v
                  (',' :: ' ' :: (dumpsEntries ((e1, e2) :: es) ++ ('\x7d' :: rest)))
                  hlv rfl]
              simp only []
              rw [skipWs_not_ws _ _ (by decide)]
              simp only []
              rw [if_pos trivial, skipWs_space, skipWs_dumpsEntries e1 e2 es ('\x7d' :: rest),
                (ih f (by omega)).2.2 e1 e2 es rest hle]

/-- `json.loads` inverts `json.dumps` on every embedded value. -/
theorem jsonLoads_jsonDumps (v : PyValue) : jsonLoads (jsonDumps v) = some v := by
  rw [jsonLoads]
  have hdata : (jsonDumps v).data = dumpsVal v := rfl
  rw [hdata, show skipWs (dumpsVal v) = dumpsVal v from by
    simpa using skipWs_dumpsVal v []]
  have hrt := (rt_fuel ((dumpsVal v).length + 1)).1 v [] (by omega) rfl
  rw [List.append_nil] at hrt
  rw [hrt]
  simp only []
  rw [if_pos (show skipWs [] = [] from rfl)]

/-- C2: `sanitize_field` turns every list- or dict-valued field into the
JSON text of that value, and `json.loads` on that text returns a structure
equal to the original value (full round trip through the serializer). -/
theorem claim_C2 (v : PyValue) (h : isComposite v = true) :
    sanitize_field v = PyValue.str (jsonDumps v) ∧
    jsonLoads (jsonDumps v) = some v := by
  refine ⟨?_, jsonLoads_jsonDumps v⟩
  cases v <;> simp_all [sanitize_field, isComposite]

/-- C2 witness: the list `[1, "a", {"k": null}]` serializes and parses back. -/
theorem claim_C2_witness :
    sanitize_field (PyValue.list [PyValue.int 1, PyValue.str "a",
        PyValue.dict [("k", PyValue.null)]])
      = PyValue.str (jsonDumps (PyValue.list [PyValue.int 1, PyValue.str "a",
          PyValue.dict [("k", PyValue.null)]])) ∧
    jsonLoads (jsonDumps (PyValue.list [PyValue.int 1, PyValue.str "a",
        PyValue.dict [("k", PyValue.null)]]))
      = some (PyValue.list [PyValue.int 1, PyValue.str "a",
          PyValue.dict [("k", PyValue.null)]]) :=
  claim_C2 (PyValue.list [PyValue.int 1, PyValue.str "a",
    PyValue.dict [("k", PyValue.null)]]) rfl
